import Mathlib

/-!
Verification of the discoid ring-buffer library (src/lib.rs and src/discoid.rs).

The development shallowly embeds both data structures:
* `CircularBuffer` — the FIFO ring buffer of src/lib.rs (push / pop / get /
  remove_multiple / consuming iterator);
* `DiscoidBuffer` — the slot buffer of src/discoid.rs (set_at_index /
  get_at_index / discard_front / get_bits_representation).

Rust `Vec<Option<T>>` becomes `List (Option T)`, `usize` becomes `Nat`
(the source only ever adds 1 or takes `% capacity`, so no wrapping
arithmetic is reachable), `Result<(), BufferError>` becomes
`Except BufferError Unit`, and a Rust `panic!` / `.expect(..)` abort is
embedded as the distinguished `PanicOr.panicked msg` outcome, kept separate
from `Except.error` because the spec distinguishes returned failure values
from uncatchable aborts.
-/

/-- Embeds the Rust `enum BufferError` of src/lib.rs: the only variant is
`BufferFull`, carrying no payload. -/
inductive BufferError where
  | BufferFull
deriving DecidableEq, Repr

/-- Outcome of an operation that can abort the process: `ok a` is a normal
return, `panicked msg` embeds a Rust `panic!`/`expect` abort with its
message.  This is distinct from `Except BufferError`, which embeds a
returned (catchable) `Result::Err` value. -/
inductive PanicOr (α : Type) where
  | ok (a : α)
  | panicked (msg : String)
deriving DecidableEq, Repr

/-- Embeds the Rust struct `CircularBuffer<T>` of src/lib.rs. -/
structure CircularBuffer (T : Type) where
  buffer : List (Option T)
  front : Nat
  rear : Nat
  capacity : Nat
  len : Nat
deriving DecidableEq, Repr

variable {T : Type}

/-- Embeds `CircularBuffer::new(size)`: `size` empty slots, all cursors 0. -/
def CircularBuffer.new (size : Nat) : CircularBuffer T :=
  { buffer := List.replicate size none
    front := 0
    rear := 0
    capacity := size
    len := 0 }

/-- Embeds `CircularBuffer::is_empty`. -/
def CircularBuffer.is_empty (b : CircularBuffer T) : Bool :=
  b.len == 0

/-- Embeds `CircularBuffer::is_full`. -/
def CircularBuffer.is_full (b : CircularBuffer T) : Bool :=
  b.len == b.capacity

/-- Embeds `CircularBuffer::push`: the mutated receiver is returned together
with the `Result<(), BufferError>` value. -/
def CircularBuffer.push (b : CircularBuffer T) (value : T) :
    CircularBuffer T × Except BufferError Unit :=
  if b.is_full then
    (b, Except.error BufferError.BufferFull)
  else
    ({ b with
        buffer := b.buffer.set b.rear (some value)
        rear := (b.rear + 1) % b.capacity
        len := b.len + 1 },
     Except.ok ())

/-- Embeds `CircularBuffer::pop`.  The `.take().expect(..)` in the source
aborts when the front slot of a non-empty buffer is vacant; that abort is
the `panicked` outcome here. -/
def CircularBuffer.pop (b : CircularBuffer T) :
    PanicOr (CircularBuffer T × Option T) :=
  if b.len = 0 then
    PanicOr.ok (b, none)
  else
    match b.buffer.getD b.front none with
    | none =>
        PanicOr.panicked "Buffer invariant violated: None value in non-empty buffer"
    | some value =>
        PanicOr.ok
          ({ b with
              buffer := b.buffer.set b.front none
              front := (b.front + 1) % b.capacity
              len := b.len - 1 },
           some value)

/-- Embeds `CircularBuffer::get(index)`. -/
def CircularBuffer.get (b : CircularBuffer T) (index : Nat) : Option T :=
  if b.len ≤ index then
    none
  else
    b.buffer.getD ((b.front + index) % b.capacity) none

/-- One iteration of the loop body of `CircularBuffer::remove_multiple`:
clear the front slot, advance `front`, decrement `len`. -/
def CircularBuffer.removeLoop : CircularBuffer T → Nat → CircularBuffer T
  | b, 0 => b
  | b, n + 1 =>
      CircularBuffer.removeLoop
        { b with
            buffer := b.buffer.set b.front none
            front := (b.front + 1) % b.capacity
            len := b.len - 1 }
        n

/-- Embeds `CircularBuffer::remove_multiple(count)`: the count is clamped to
`len` and the loop body runs that many times. -/
def CircularBuffer.remove_multiple (b : CircularBuffer T) (count : Nat) :
    CircularBuffer T :=
  CircularBuffer.removeLoop b (if b.len < count then b.len else count)

/-- Embeds the Rust struct `CircularBufferIntoIter<T>` of src/lib.rs. -/
structure CircularBufferIntoIter (T : Type) where
  buffer : List (Option T)
  front : Nat
  capacity : Nat
  current : Nat
  remaining : Nat
deriving DecidableEq, Repr

/-- Embeds `<CircularBufferIntoIter as Iterator>::next`: returns the updated
iterator together with the produced `Option<T>`. -/
def CircularBufferIntoIter.next (it : CircularBufferIntoIter T) :
    CircularBufferIntoIter T × Option T :=
  if it.remaining = 0 then
    (it, none)
  else
    let index := (it.front + it.current) % it.capacity
    ({ it with
        buffer := it.buffer.set index none
        current := it.current + 1
        remaining := it.remaining - 1 },
     it.buffer.getD index none)

/-- Embeds `<CircularBuffer as IntoIterator>::into_iter`. -/
def CircularBuffer.into_iter (b : CircularBuffer T) : CircularBufferIntoIter T :=
  { buffer := b.buffer
    front := b.front
    capacity := b.capacity
    current := 0
    remaining := b.len }

/-- Runs the consuming iterator `k` steps, collecting each step's output. -/
def CircularBufferIntoIter.nextN :
    CircularBufferIntoIter T → Nat → CircularBufferIntoIter T × List (Option T)
  | it, 0 => (it, [])
  | it, k + 1 =>
      let s := it.next
      let r := CircularBufferIntoIter.nextN s.1 k
      (r.1, s.2 :: r.2)

/-- Runs `pop` repeatedly `n` times, collecting each returned option. -/
def CircularBuffer.popN :
    CircularBuffer T → Nat → PanicOr (CircularBuffer T × List (Option T))
  | b, 0 => PanicOr.ok (b, [])
  | b, n + 1 =>
      match b.pop with
      | PanicOr.ok (b', o) =>
          match CircularBuffer.popN b' n with
          | PanicOr.ok (bf, os) => PanicOr.ok (bf, o :: os)
          | PanicOr.panicked m => PanicOr.panicked m
      | PanicOr.panicked m => PanicOr.panicked m

/-- Abstraction relation: the buffer state `b` represents the FIFO content
list `l` (front-to-rear order).  It packages the representation invariant of
the source: storage length equals capacity, the cursors are in range,
`rear` is `front + len` modulo capacity, the `len` slots of the logical
window hold exactly the elements of `l`, and every slot outside the window
is vacant (`l[i]?` is `none` for `l.length ≤ i`). -/
def CircularBuffer.Models (b : CircularBuffer T) (l : List T) : Prop :=
  b.buffer.length = b.capacity ∧
  b.front < b.capacity ∧
  b.rear = (b.front + b.len) % b.capacity ∧
  b.len = l.length ∧
  b.len ≤ b.capacity ∧
  ∀ i, i < b.capacity → b.buffer.getD ((b.front + i) % b.capacity) none = l[i]?

instance (b : CircularBuffer T) (l : List T) [DecidableEq T] :
    Decidable (b.Models l) := by
  unfold CircularBuffer.Models
  infer_instance

/-- An operation of a push/pop-only interaction sequence (claim C1's
alphabet). -/
inductive POp (T : Type) where
  | push (value : T)
  | pop
deriving DecidableEq, Repr

/-- Runs a push/pop sequence.  Returns the final buffer, the list of values
accepted by `push` (in order), and the list of values returned by `pop` (in
order); a `pop` abort propagates as `panicked`. -/
def CircularBuffer.runPP :
    CircularBuffer T → List (POp T) → PanicOr (CircularBuffer T × List T × List T)
  | b, [] => PanicOr.ok (b, [], [])
  | b, POp.push v :: rest =>
      match b.push v with
      | (b', Except.ok _) =>
          match CircularBuffer.runPP b' rest with
          | PanicOr.ok (bf, acc, pops) => PanicOr.ok (bf, v :: acc, pops)
          | PanicOr.panicked m => PanicOr.panicked m
      | (b', Except.error _) => CircularBuffer.runPP b' rest
  | b, POp.pop :: rest =>
      match b.pop with
      | PanicOr.ok (b', some v) =>
          match CircularBuffer.runPP b' rest with
          | PanicOr.ok (bf, acc, pops) => PanicOr.ok (bf, acc, v :: pops)
          | PanicOr.panicked m => PanicOr.panicked m
      | PanicOr.ok (b', none) => CircularBuffer.runPP b' rest
      | PanicOr.panicked m => PanicOr.panicked m

/-- An operation of a general FIFO-buffer interaction sequence (claim C10's
alphabet: push, pop and remove_multiple). -/
inductive QOp (T : Type) where
  | push (value : T)
  | pop
  | remove (count : Nat)
deriving DecidableEq, Repr

/-- Runs a push/pop/remove_multiple sequence, keeping only the final state;
a `pop` abort propagates as `panicked`. -/
def CircularBuffer.runAll :
    CircularBuffer T → List (QOp T) → PanicOr (CircularBuffer T)
  | b, [] => PanicOr.ok b
  | b, QOp.push v :: rest => CircularBuffer.runAll (b.push v).1 rest
  | b, QOp.pop :: rest =>
      match b.pop with
      | PanicOr.ok (b', _) => CircularBuffer.runAll b' rest
      | PanicOr.panicked m => PanicOr.panicked m
  | b, QOp.remove n :: rest => CircularBuffer.runAll (b.remove_multiple n) rest

/-- Abstraction relation for the consuming iterator: the not-yet-produced
elements are exactly `l`, stored at wraparound positions `current`,
`current + 1`, … relative to `front`. -/
def CircularBufferIntoIter.Models
    (it : CircularBufferIntoIter T) (l : List T) : Prop :=
  it.buffer.length = it.capacity ∧
  it.front < it.capacity ∧
  it.current + it.remaining ≤ it.capacity ∧
  it.remaining = l.length ∧
  ∀ j, j < it.remaining →
    it.buffer.getD ((it.front + it.current + j) % it.capacity) none = l[j]?

instance (it : CircularBufferIntoIter T) (l : List T) [DecidableEq T] :
    Decidable (it.Models l) := by
  unfold CircularBufferIntoIter.Models
  infer_instance

/-- Embeds the Rust struct `DiscoidBuffer<T>` of src/discoid.rs. -/
structure DiscoidBuffer (T : Type) where
  buffer : List (Option T)
  front : Nat
  capacity : Nat
deriving DecidableEq, Repr

/-- Embeds `DiscoidBuffer::new(size)`: `size` empty slots, `front = 0`. -/
def DiscoidBuffer.new (size : Nat) : DiscoidBuffer T :=
  { buffer := List.replicate size none
    front := 0
    capacity := size }

/-- Embeds `DiscoidBuffer::set_at_index`: on `index >= capacity` the source
executes `panic!("discoid buffer: index out of bounds")` — an uncatchable
abort, embedded as the `panicked` outcome, not as a returned error value. -/
def DiscoidBuffer.set_at_index (b : DiscoidBuffer T) (index : Nat) (value : T) :
    PanicOr (DiscoidBuffer T) :=
  if b.capacity ≤ index then
    PanicOr.panicked "discoid buffer: index out of bounds"
  else
    PanicOr.ok
      { b with buffer := b.buffer.set ((b.front + index) % b.capacity) (some value) }

/-- Embeds `DiscoidBuffer::get_at_index`. -/
def DiscoidBuffer.get_at_index (b : DiscoidBuffer T) (index : Nat) : Option T :=
  if b.capacity ≤ index then
    none
  else
    b.buffer.getD ((b.front + index) % b.capacity) none

/-- One iteration of the loop body of `DiscoidBuffer::discard_front`: clear
the front slot and advance `front`. -/
def DiscoidBuffer.discardLoop : DiscoidBuffer T → Nat → DiscoidBuffer T
  | b, 0 => b
  | b, n + 1 =>
      DiscoidBuffer.discardLoop
        { b with
            buffer := b.buffer.set b.front none
            front := (b.front + 1) % b.capacity }
        n

/-- Embeds `DiscoidBuffer::discard_front`: on `count > capacity` the source
executes `panic!("discoid buffer: discarding too much")`. -/
def DiscoidBuffer.discard_front (b : DiscoidBuffer T) (count : Nat) :
    PanicOr (DiscoidBuffer T) :=
  if b.capacity < count then
    PanicOr.panicked "discoid buffer: discarding too much"
  else
    PanicOr.ok (DiscoidBuffer.discardLoop b count)

/-- Embeds `DiscoidBuffer::get_bits_representation`: a fold over logical
indices `0..capacity`, OR-ing `1 <<< i` for each occupied logical slot.
The source uses `u64`; for `capacity ≤ 64` (the only range the spec admits,
and the range in which every shift is in bounds) the `u64` arithmetic never
wraps, so plain `Nat` is an exact embedding there. -/
def DiscoidBuffer.get_bits_representation (b : DiscoidBuffer T) : Nat :=
  (List.range b.capacity).foldl
    (fun bits i =>
      if (b.buffer.getD ((b.front + i) % b.capacity) none).isSome then
        bits ||| (1 <<< i)
      else
        bits)
    0

/-- An operation of a slot-buffer interaction sequence (claim C6's
alphabet; reads are pure and need not appear). -/
inductive DOp (T : Type) where
  | set (index : Nat) (value : T)
  | discard (count : Nat)
deriving DecidableEq, Repr

/-- Runs a set/discard sequence on the slot buffer; a panic propagates. -/
def DiscoidBuffer.runOps :
    DiscoidBuffer T → List (DOp T) → PanicOr (DiscoidBuffer T)
  | b, [] => PanicOr.ok b
  | b, DOp.set i v :: rest =>
      match b.set_at_index i v with
      | PanicOr.ok b' => DiscoidBuffer.runOps b' rest
      | PanicOr.panicked m => PanicOr.panicked m
  | b, DOp.discard n :: rest =>
      match b.discard_front n with
      | PanicOr.ok b' => DiscoidBuffer.runOps b' rest
      | PanicOr.panicked m => PanicOr.panicked m

/-- In-contract conditions of a slot-buffer operation for capacity `cap`:
writes stay below `cap` and discards do not exceed `cap`. -/
def DOpValid (cap : Nat) : DOp T → Prop
  | DOp.set i _ => i < cap
  | DOp.discard n => n ≤ cap

instance (cap : Nat) (op : DOp T) : Decidable (DOpValid cap op) := by
  cases op <;> simp only [DOpValid] <;> infer_instance

/-- Reference model of one slot-buffer operation on the logical view
`g` (a `capacity`-long list of optional occupants, position `i` being
logical index `i`): a write records its value at its logical position,
overwriting the previous occupant; a discard of `k` erases the first `k`
logical positions, so the surviving occupants shift down by `k` and the
vacated tail is empty. -/
def dspecStep (g : List (Option T)) : DOp T → List (Option T)
  | DOp.set i v => g.set i (some v)
  | DOp.discard k => g.drop k ++ List.replicate k none

/-- Reference model of a whole slot-buffer interaction sequence. -/
def dspecRun (g : List (Option T)) (ops : List (DOp T)) : List (Option T) :=
  ops.foldl dspecStep g

/-- Abstraction relation for the slot buffer: logical slot `i` holds exactly
`g[i]`. -/
def DiscoidBuffer.Models (b : DiscoidBuffer T) (g : List (Option T)) : Prop :=
  b.buffer.length = b.capacity ∧
  b.front < b.capacity ∧
  g.length = b.capacity ∧
  ∀ i, i < b.capacity → b.buffer.getD ((b.front + i) % b.capacity) none = g.getD i none

instance (b : DiscoidBuffer T) (g : List (Option T)) [DecidableEq T] :
    Decidable (b.Models g) := by
  unfold DiscoidBuffer.Models
  infer_instance

/-- A full capacity-1 FIFO buffer holding the single value 1 (the state
reached by pushing 1 into a fresh capacity-1 buffer). -/
def fullBufOne : CircularBuffer Nat :=
  ((CircularBuffer.new 1).push 1).1

/-- A capacity-3 FIFO buffer whose window has wrapped: `front = 2`, content
[3, 4, 5] (the state reached by pushing 1,2,3, popping twice, then pushing
4 and 5). -/
def wrapBuf : CircularBuffer Nat :=
  { buffer := [some 4, some 5, some 3]
    front := 2
    rear := 2
    capacity := 3
    len := 3 }

/-- An 8-slot slot buffer with `front = 5` whose logical indices 0 and 3 are
occupied (stored at absolute cells 5 and 0 because of wraparound). -/
def slotBufEx : DiscoidBuffer Nat :=
  { buffer := ((List.replicate 8 none).set 5 (some 7)).set 0 (some 42)
    front := 5
    capacity := 8 }

/-- Wraparound addressing is injective on logical indices below capacity. -/
theorem mod_add_inj (cap a i j : Nat) (hi : i < cap) (hj : j < cap)
    (h : (a + i) % cap = (a + j) % cap) : i = j := by
  have hmod : i ≡ j [MOD cap] :=
    Nat.ModEq.add_left_cancel (Nat.ModEq.refl a) h
  have hmm : i % cap = j % cap := hmod
  rwa [Nat.mod_eq_of_lt hi, Nat.mod_eq_of_lt hj] at hmm

/-- Construction yields a buffer modelling the empty content list. -/
theorem CircularBuffer.new_models (cap : Nat) (h : 0 < cap) :
    (CircularBuffer.new (T := T) cap).Models [] := by
  refine ⟨by simp [CircularBuffer.new], h, by simp [CircularBuffer.new], rfl,
    by simp [CircularBuffer.new], ?_⟩
  intro i hi
  simp only [CircularBuffer.new, List.getD_eq_getElem?_getD, List.getElem?_replicate]
  split <;> rfl

/-- The state change shared by `pop` and the `remove_multiple` loop body
takes a buffer modelling `x :: xs` to one modelling `xs`. -/
theorem CircularBuffer.advance_models (b : CircularBuffer T) (x : T) (xs : List T)
    (hm : b.Models (x :: xs)) :
    CircularBuffer.Models
      { b with
          buffer := b.buffer.set b.front none
          front := (b.front + 1) % b.capacity
          len := b.len - 1 } xs := by
  obtain ⟨hlen, hfront, hrear, hl, hle, hslot⟩ := hm
  have hcap : 0 < b.capacity := Nat.lt_of_le_of_lt (Nat.zero_le _) hfront
  refine ⟨by simpa using hlen, Nat.mod_lt _ hcap, ?_, ?_, ?_, ?_⟩
  · show b.rear = ((b.front + 1) % b.capacity + (b.len - 1)) % b.capacity
    rw [Nat.mod_add_mod]
    have hone : 1 ≤ b.len := by rw [hl]; exact Nat.succ_le_succ (Nat.zero_le _)
    have harith : b.front + 1 + (b.len - 1) = b.front + b.len := by omega
    rw [harith]; exact hrear
  · show b.len - 1 = xs.length
    rw [hl]; rfl
  · exact Nat.le_trans (Nat.sub_le _ _) hle
  · intro i hi
    have hi' : i < b.capacity := hi
    show (b.buffer.set b.front none).getD
        (((b.front + 1) % b.capacity + i) % b.capacity) none = xs[i]?
    rw [Nat.mod_add_mod]
    have harr : b.front + 1 + i = b.front + (i + 1) := by omega
    rw [harr]
    by_cases hcase : i + 1 < b.capacity
    · have hne : b.front ≠ (b.front + (i + 1)) % b.capacity := by
        intro heq
        have h0 : (b.front + 0) % b.capacity = b.front := by
          rw [Nat.add_zero, Nat.mod_eq_of_lt hfront]
        have := mod_add_inj b.capacity b.front (i + 1) 0 hcase hcap
          (by rw [← heq, h0])
        omega
      rw [List.getD_eq_getElem?_getD, List.getElem?_set_ne hne,
        ← List.getD_eq_getElem?_getD, hslot (i + 1) hcase]
      simp
    · have hieq : i + 1 = b.capacity := by omega
      have hpos : (b.front + (i + 1)) % b.capacity = b.front := by
        rw [hieq, Nat.add_mod_right, Nat.mod_eq_of_lt hfront]
      rw [hpos, List.getD_eq_getElem?_getD,
        List.getElem?_set_self (by rw [hlen]; exact hfront)]
      have hxs : xs.length = b.len - 1 := by rw [hl]; rfl
      have : xs[i]? = none := List.getElem?_eq_none (by omega)
      rw [this]
      rfl

/-- On a buffer modelling `x :: xs`, `pop` succeeds, returns `x`, and leaves
a buffer modelling `xs`; the `expect` abort branch is not taken. -/
theorem CircularBuffer.pop_models_cons (b : CircularBuffer T) (x : T) (xs : List T)
    (hm : b.Models (x :: xs)) :
    ∃ b', b.pop = PanicOr.ok (b', some x) ∧ b'.Models xs := by
  have hm' := hm
  obtain ⟨hlen, hfront, hrear, hl, hle, hslot⟩ := hm'
  have hcap : 0 < b.capacity := Nat.lt_of_le_of_lt (Nat.zero_le _) hfront
  have hlen0 : ¬ b.len = 0 := by rw [hl]; simp
  have hfront0 : (b.front + 0) % b.capacity = b.front := by
    rw [Nat.add_zero, Nat.mod_eq_of_lt hfront]
  have hs0 : b.buffer.getD b.front none = some x := by
    have := hslot 0 hcap
    rw [hfront0] at this
    simpa using this
  refine ⟨_, ?_, CircularBuffer.advance_models b x xs hm⟩
  unfold CircularBuffer.pop
  rw [if_neg hlen0, hs0]

/-- On a buffer modelling the empty list, `pop` returns absence and the
state is untouched. -/
theorem CircularBuffer.pop_nil (b : CircularBuffer T) (h : b.len = 0) :
    b.pop = PanicOr.ok (b, none) := by
  unfold CircularBuffer.pop
  rw [if_pos h]

/-- On a non-full buffer modelling `l`, `push` succeeds and the result
models `l ++ [v]`. -/
theorem CircularBuffer.push_models_ok (b : CircularBuffer T) (l : List T) (v : T)
    (hm : b.Models l) (hlt : l.length < b.capacity) :
    ∃ b', b.push v = (b', Except.ok ()) ∧ b'.Models (l ++ [v]) := by
  obtain ⟨hlen, hfront, hrear, hl, hle, hslot⟩ := hm
  have hcap : 0 < b.capacity := Nat.lt_of_le_of_lt (Nat.zero_le _) hfront
  have hnotfull : b.is_full = false := by
    simp [CircularBuffer.is_full, hl]
    omega
  refine ⟨{ b with
      buffer := b.buffer.set b.rear (some v)
      rear := (b.rear + 1) % b.capacity
      len := b.len + 1 }, ?_, ?_⟩
  · simp [CircularBuffer.push, hnotfull]
  · refine ⟨by simpa using hlen, hfront, ?_, ?_, ?_, ?_⟩
    · show (b.rear + 1) % b.capacity = (b.front + (b.len + 1)) % b.capacity
      rw [hrear, Nat.mod_add_mod, ← Nat.add_assoc]
    · show b.len + 1 = (l ++ [v]).length
      rw [hl]; simp
    · show b.len + 1 ≤ b.capacity
      omega
    · intro i hi
      have hi' : i < b.capacity := hi
      show (b.buffer.set b.rear (some v)).getD ((b.front + i) % b.capacity) none
        = (l ++ [v])[i]?
      by_cases hcase : i = b.len
      · have hpos : (b.front + i) % b.capacity = b.rear := by rw [hcase, hrear]
        rw [hpos, List.getD_eq_getElem?_getD,
          List.getElem?_set_self (by rw [hlen, hrear]; exact Nat.mod_lt _ hcap)]
        subst hcase
        rw [hl, List.getElem?_append_right (Nat.le_refl _)]
        simp
      · have hlencap : b.len < b.capacity := by omega
        have hne : b.rear ≠ (b.front + i) % b.capacity := by
          intro heq
          rw [hrear] at heq
          exact hcase (mod_add_inj b.capacity b.front i b.len hi' hlencap heq.symm)
        rw [List.getD_eq_getElem?_getD, List.getElem?_set_ne hne,
          ← List.getD_eq_getElem?_getD, hslot i hi, List.getElem?_append]
        by_cases hil : i < l.length
        · rw [if_pos hil]
        · rw [if_neg hil]
          have h1 : l[i]? = none := List.getElem?_eq_none (by omega)
          have h2 : [v][i - l.length]? = none := by
            apply List.getElem?_eq_none
            simp
            omega
          rw [h1, h2]

/-- On a full buffer, `push` fails with `BufferFull` and returns the state
unchanged. -/
theorem CircularBuffer.push_full (b : CircularBuffer T) (v : T)
    (h : b.len = b.capacity) :
    b.push v = (b, Except.error BufferError.BufferFull) := by
  unfold CircularBuffer.push
  have : b.is_full = true := by simp [CircularBuffer.is_full, h]
  rw [this]
  simp

/-- The `remove_multiple` loop drops the first `n` elements of the content. -/
theorem CircularBuffer.removeLoop_models :
    ∀ (n : Nat) (b : CircularBuffer T) (l : List T), b.Models l → n ≤ l.length →
      (CircularBuffer.removeLoop b n).Models (l.drop n)
  | 0, b, l, hm, _ => hm
  | n + 1, b, l, hm, hn => by
      match l with
      | [] => exact absurd hn (by simp)
      | x :: xs =>
          have hadv := CircularBuffer.advance_models b x xs hm
          have := CircularBuffer.removeLoop_models n _ xs hadv
            (Nat.le_of_succ_le_succ (by simpa using hn))
          simpa [CircularBuffer.removeLoop] using this

/-- `remove_multiple count` drops `min count len` elements, i.e. the result
models `l.drop count` (dropping past the end clamps to everything). -/
theorem CircularBuffer.remove_multiple_models (b : CircularBuffer T) (l : List T)
    (count : Nat) (hm : b.Models l) :
    (b.remove_multiple count).Models (l.drop count) := by
  have hl : b.len = l.length := hm.2.2.2.1
  unfold CircularBuffer.remove_multiple
  by_cases hc : b.len < count
  · rw [if_pos hc, hl]
    have h1 := CircularBuffer.removeLoop_models l.length b l hm (Nat.le_refl _)
    rw [List.drop_length] at h1
    rw [List.drop_eq_nil_of_le (by omega)]
    exact h1
  · rw [if_neg hc]
    exact CircularBuffer.removeLoop_models count b l hm (by omega)

/-- On a buffer modelling `l`, `get i` is exactly the `i`-th element of `l`
(`none` past the window). -/
theorem CircularBuffer.get_models (b : CircularBuffer T) (l : List T)
    (hm : b.Models l) (i : Nat) : b.get i = l[i]? := by
  obtain ⟨hlen, hfront, hrear, hl, hle, hslot⟩ := hm
  unfold CircularBuffer.get
  by_cases hcase : b.len ≤ i
  · rw [if_pos hcase]
    exact (List.getElem?_eq_none (by omega)).symm
  · rw [if_neg hcase]
    exact hslot i (by omega)

/-- FIFO conservation: running any push/pop sequence from a buffer modelling
`l` succeeds and satisfies `pops ++ final = l ++ accepted`: the popped
values leave the front in exactly the order the accepted values entered at
the rear. -/
theorem CircularBuffer.runPP_models :
    ∀ (ops : List (POp T)) (b : CircularBuffer T) (l : List T), b.Models l →
      ∃ bf lf acc pops,
        b.runPP ops = PanicOr.ok (bf, acc, pops) ∧ bf.Models lf ∧
          pops ++ lf = l ++ acc
  | [], b, l, hm => ⟨b, l, [], [], rfl, hm, by simp⟩
  | POp.push v :: rest, b, l, hm => by
      have hl : b.len = l.length := hm.2.2.2.1
      have hle : b.len ≤ b.capacity := hm.2.2.2.2.1
      by_cases hfull : l.length < b.capacity
      · obtain ⟨b', hpush, hm'⟩ := CircularBuffer.push_models_ok b l v hm hfull
        obtain ⟨bf, lf, acc, pops, hrun, hmf, hcons⟩ :=
          CircularBuffer.runPP_models rest b' (l ++ [v]) hm'
        refine ⟨bf, lf, v :: acc, pops, ?_, hmf, ?_⟩
        · simp only [CircularBuffer.runPP, hpush, hrun]
        · rw [hcons, List.append_assoc]
          rfl
      · have hfull' : b.len = b.capacity := by omega
        have hpush := CircularBuffer.push_full b v hfull'
        obtain ⟨bf, lf, acc, pops, hrun, hmf, hcons⟩ :=
          CircularBuffer.runPP_models rest b l hm
        refine ⟨bf, lf, acc, pops, ?_, hmf, hcons⟩
        simp only [CircularBuffer.runPP, hpush, hrun]
  | POp.pop :: rest, b, l, hm => by
      match l with
      | [] =>
          have hl : b.len = 0 := by simpa using hm.2.2.2.1
          have hpop := CircularBuffer.pop_nil b hl
          obtain ⟨bf, lf, acc, pops, hrun, hmf, hcons⟩ :=
            CircularBuffer.runPP_models rest b [] hm
          refine ⟨bf, lf, acc, pops, ?_, hmf, hcons⟩
          simp only [CircularBuffer.runPP, hpop, hrun]
      | x :: xs =>
          obtain ⟨b', hpop, hm'⟩ := CircularBuffer.pop_models_cons b x xs hm
          obtain ⟨bf, lf, acc, pops, hrun, hmf, hcons⟩ :=
            CircularBuffer.runPP_models rest b' xs hm'
          refine ⟨bf, lf, acc, x :: pops, ?_, hmf, ?_⟩
          · simp only [CircularBuffer.runPP, hpop, hrun]
          · rw [List.cons_append, hcons]
            rfl

/-- Invariant preservation: any push/pop/remove_multiple sequence from a
state modelling some list reaches a state modelling some list, without ever
taking `pop`'s abort branch. -/
theorem CircularBuffer.runAll_models :
    ∀ (ops : List (QOp T)) (b : CircularBuffer T) (l : List T), b.Models l →
      ∃ bf lf, b.runAll ops = PanicOr.ok bf ∧ bf.Models lf
  | [], b, l, hm => ⟨b, l, rfl, hm⟩
  | QOp.push v :: rest, b, l, hm => by
      by_cases hfull : l.length < b.capacity
      · obtain ⟨b', hpush, hm'⟩ := CircularBuffer.push_models_ok b l v hm hfull
        obtain ⟨bf, lf, hrun, hmf⟩ :=
          CircularBuffer.runAll_models rest b' (l ++ [v]) hm'
        exact ⟨bf, lf, by simp only [CircularBuffer.runAll, hpush, hrun], hmf⟩
      · have hl : b.len = l.length := hm.2.2.2.1
        have hle : b.len ≤ b.capacity := hm.2.2.2.2.1
        have hpush := CircularBuffer.push_full b v (by omega)
        obtain ⟨bf, lf, hrun, hmf⟩ := CircularBuffer.runAll_models rest b l hm
        exact ⟨bf, lf, by simp only [CircularBuffer.runAll, hpush, hrun], hmf⟩
  | QOp.pop :: rest, b, l, hm => by
      match l with
      | [] =>
          have hl : b.len = 0 := by simpa using hm.2.2.2.1
          have hpop := CircularBuffer.pop_nil b hl
          obtain ⟨bf, lf, hrun, hmf⟩ := CircularBuffer.runAll_models rest b [] hm
          exact ⟨bf, lf, by simp only [CircularBuffer.runAll, hpop, hrun], hmf⟩
      | x :: xs =>
          obtain ⟨b', hpop, hm'⟩ := CircularBuffer.pop_models_cons b x xs hm
          obtain ⟨bf, lf, hrun, hmf⟩ := CircularBuffer.runAll_models rest b' xs hm'
          exact ⟨bf, lf, by simp only [CircularBuffer.runAll, hpop, hrun], hmf⟩
  | QOp.remove n :: rest, b, l, hm => by
      have hm' := CircularBuffer.remove_multiple_models b l n hm
      obtain ⟨bf, lf, hrun, hmf⟩ :=
        CircularBuffer.runAll_models rest (b.remove_multiple n) (l.drop n) hm'
      exact ⟨bf, lf, by simp only [CircularBuffer.runAll, hrun], hmf⟩

/-- Starting the consuming iterator on a buffer modelling `l` gives an
iterator modelling `l`. -/
theorem CircularBuffer.into_iter_models (b : CircularBuffer T) (l : List T)
    (hm : b.Models l) : (b.into_iter).Models l := by
  obtain ⟨hlen, hfront, hrear, hl, hle, hslot⟩ := hm
  refine ⟨hlen, hfront, ?_, hl, ?_⟩
  · show 0 + b.len ≤ b.capacity
    omega
  · intro j hj
    have hj' : j < b.len := hj
    show b.buffer.getD ((b.front + 0 + j) % b.capacity) none = l[j]?
    rw [Nat.add_zero]
    exact hslot j (by omega)

/-- A production step on an iterator modelling `x :: xs` yields `some x` and
an iterator modelling `xs`. -/
theorem CircularBufferIntoIter.next_models_cons
    (it : CircularBufferIntoIter T) (x : T) (xs : List T)
    (hm : it.Models (x :: xs)) :
    ∃ it', it.next = (it', some x) ∧ it'.Models xs := by
  obtain ⟨hlen, hfront, hcr, hrem, hslot⟩ := hm
  have hcap : 0 < it.capacity := Nat.lt_of_le_of_lt (Nat.zero_le _) hfront
  have hrem0 : ¬ it.remaining = 0 := by rw [hrem]; simp
  have hs0 : it.buffer.getD ((it.front + it.current) % it.capacity) none
      = some x := by
    have := hslot 0 (by rw [hrem]; simp)
    rw [Nat.add_zero] at this
    simpa using this
  refine ⟨{ it with
      buffer := it.buffer.set ((it.front + it.current) % it.capacity) none
      current := it.current + 1
      remaining := it.remaining - 1 }, ?_, ?_⟩
  · unfold CircularBufferIntoIter.next
    rw [if_neg hrem0]
    simp only [hs0]
  · refine ⟨by simpa using hlen, hfront, ?_, ?_, ?_⟩
    · show it.current + 1 + (it.remaining - 1) ≤ it.capacity
      have : 1 ≤ it.remaining := by rw [hrem]; simp
      omega
    · show it.remaining - 1 = xs.length
      rw [hrem]; rfl
    · intro j hj
      have hj' : j < it.remaining - 1 := hj
      have hrle : it.remaining ≤ it.capacity := by omega
      show (it.buffer.set ((it.front + it.current) % it.capacity) none).getD
          ((it.front + (it.current + 1) + j) % it.capacity) none = xs[j]?
      have harr : it.front + (it.current + 1) + j
          = it.front + it.current + (j + 1) := by omega
      rw [harr]
      have hne : (it.front + it.current) % it.capacity
          ≠ (it.front + it.current + (j + 1)) % it.capacity := by
        intro heq
        have h0 : (it.front + it.current + 0) % it.capacity
            = (it.front + it.current) % it.capacity := by rw [Nat.add_zero]
        have := mod_add_inj it.capacity (it.front + it.current) 0 (j + 1)
          hcap (by omega) (by rw [h0, heq])
        omega
      rw [List.getD_eq_getElem?_getD, List.getElem?_set_ne hne,
        ← List.getD_eq_getElem?_getD, hslot (j + 1) (by omega)]
      simp

/-- A production step on an exhausted iterator returns `none` and changes
nothing. -/
theorem CircularBufferIntoIter.next_nil (it : CircularBufferIntoIter T)
    (h : it.remaining = 0) : it.next = (it, none) := by
  unfold CircularBufferIntoIter.next
  rw [if_pos h]

/-- Running `k` production steps on an iterator modelling `l` yields the
first `k` elements of `l` (as `some`s) followed by `none`s once `l` is
exhausted, and leaves an iterator modelling the rest of `l`. -/
theorem CircularBufferIntoIter.nextN_models :
    ∀ (k : Nat) (l : List T) (it : CircularBufferIntoIter T), it.Models l →
      ∃ itf, it.nextN k
          = (itf, (l.take k).map some ++ List.replicate (k - l.length) none) ∧
        itf.Models (l.drop k)
  | 0, l, it, hm => ⟨it, by simp [CircularBufferIntoIter.nextN], hm⟩
  | k + 1, [], it, hm => by
      have hrem : it.remaining = 0 := by simpa using hm.2.2.2.1
      have hnext := CircularBufferIntoIter.next_nil it hrem
      obtain ⟨itf, hrun, hmf⟩ :=
        CircularBufferIntoIter.nextN_models k [] it hm
      refine ⟨itf, ?_, by simpa using hmf⟩
      simp only [CircularBufferIntoIter.nextN, hnext, hrun]
      simp [List.replicate_succ]
  | k + 1, x :: xs, it, hm => by
      obtain ⟨it', hnext, hm'⟩ :=
        CircularBufferIntoIter.next_models_cons it x xs hm
      obtain ⟨itf, hrun, hmf⟩ :=
        CircularBufferIntoIter.nextN_models k xs it' hm'
      refine ⟨itf, ?_, by simpa using hmf⟩
      simp only [CircularBufferIntoIter.nextN, hnext, hrun]
      simp [List.take_succ_cons]

/-- Repeatedly popping an empty buffer keeps returning absence and keeps the
state unchanged, any number of times. -/
theorem CircularBuffer.popN_nil (b : CircularBuffer T) (h : b.len = 0) :
    ∀ n, b.popN n = PanicOr.ok (b, List.replicate n none)
  | 0 => by simp [CircularBuffer.popN]
  | n + 1 => by
      have hpop := CircularBuffer.pop_nil b h
      have hrec := CircularBuffer.popN_nil b h n
      simp only [CircularBuffer.popN, hpop, hrec]
      simp [List.replicate_succ]

/-- Construction of the slot buffer models the all-empty logical view. -/
theorem DiscoidBuffer.new_slot_models (cap : Nat) (h : 0 < cap) :
    (DiscoidBuffer.new (T := T) cap).Models (List.replicate cap none) := by
  refine ⟨by simp [DiscoidBuffer.new], h, by simp [DiscoidBuffer.new], ?_⟩
  intro i hi
  simp only [DiscoidBuffer.new, List.getD_eq_getElem?_getD, List.getElem?_replicate]
  split <;> split <;> rfl

/-- An in-contract `set_at_index` succeeds and records the value at its
logical position, leaving every other logical slot unchanged. -/
theorem DiscoidBuffer.set_models (b : DiscoidBuffer T) (g : List (Option T))
    (i : Nat) (v : T) (hm : b.Models g) (hi : i < b.capacity) :
    ∃ b', b.set_at_index i v = PanicOr.ok b' ∧ b'.Models (g.set i (some v)) := by
  obtain ⟨hlen, hfront, hg, hslot⟩ := hm
  have hcap : 0 < b.capacity := Nat.lt_of_le_of_lt (Nat.zero_le _) hfront
  refine ⟨{ b with
      buffer := b.buffer.set ((b.front + i) % b.capacity) (some v) }, ?_, ?_⟩
  · unfold DiscoidBuffer.set_at_index
    rw [if_neg (by omega)]
  · refine ⟨by simpa using hlen, hfront, by simpa using hg, ?_⟩
    intro j hj
    have hj' : j < b.capacity := hj
    show (b.buffer.set ((b.front + i) % b.capacity) (some v)).getD
        ((b.front + j) % b.capacity) none = (g.set i (some v)).getD j none
    by_cases hcase : j = i
    · subst hcase
      rw [List.getD_eq_getElem?_getD,
        List.getElem?_set_self (by rw [hlen]; exact Nat.mod_lt _ hcap),
        List.getD_eq_getElem?_getD,
        List.getElem?_set_self (by rw [hg]; exact hj')]
    · have hne : (b.front + i) % b.capacity ≠ (b.front + j) % b.capacity := by
        intro heq
        exact hcase (mod_add_inj b.capacity b.front j i hj' hi heq.symm)
      rw [List.getD_eq_getElem?_getD, List.getElem?_set_ne hne,
        ← List.getD_eq_getElem?_getD, hslot j hj',
        List.getD_eq_getElem?_getD, List.getD_eq_getElem?_getD,
        List.getElem?_set_ne (Ne.symm hcase)]

/-- One iteration of the `discard_front` loop shifts the logical view down
by one position and vacates the last position. -/
theorem DiscoidBuffer.discard_step_models (b : DiscoidBuffer T)
    (g : List (Option T)) (hm : b.Models g) :
    DiscoidBuffer.Models
      { b with
          buffer := b.buffer.set b.front none
          front := (b.front + 1) % b.capacity }
      (g.drop 1 ++ [none]) := by
  obtain ⟨hlen, hfront, hg, hslot⟩ := hm
  have hcap : 0 < b.capacity := Nat.lt_of_le_of_lt (Nat.zero_le _) hfront
  refine ⟨by simpa using hlen, Nat.mod_lt _ hcap, ?_, ?_⟩
  · show (g.drop 1 ++ [none]).length = b.capacity
    simp [hg]
    omega
  · intro j hj
    have hj' : j < b.capacity := hj
    show (b.buffer.set b.front none).getD
        (((b.front + 1) % b.capacity + j) % b.capacity) none
      = (g.drop 1 ++ [none]).getD j none
    rw [Nat.mod_add_mod]
    have harr : b.front + 1 + j = b.front + (j + 1) := by omega
    rw [harr]
    have hdl : (g.drop 1).length = b.capacity - 1 := by simp [hg]
    by_cases hcase : j + 1 < b.capacity
    · have hne : b.front ≠ (b.front + (j + 1)) % b.capacity := by
        intro heq
        have h0 : (b.front + 0) % b.capacity = b.front := by
          rw [Nat.add_zero, Nat.mod_eq_of_lt hfront]
        have := mod_add_inj b.capacity b.front (j + 1) 0 hcase hcap
          (by rw [← heq, h0])
        omega
      rw [List.getD_eq_getElem?_getD, List.getElem?_set_ne hne,
        ← List.getD_eq_getElem?_getD, hslot (j + 1) hcase,
        List.getD_eq_getElem?_getD, List.getD_eq_getElem?_getD,
        List.getElem?_append, if_pos (by omega : j < (g.drop 1).length),
        List.getElem?_drop]
      have hadd : 1 + j = j + 1 := by omega
      rw [hadd]
    · have hjeq : j + 1 = b.capacity := by omega
      have hpos : (b.front + (j + 1)) % b.capacity = b.front := by
        rw [hjeq, Nat.add_mod_right, Nat.mod_eq_of_lt hfront]
      rw [hpos, List.getD_eq_getElem?_getD,
        List.getElem?_set_self (by rw [hlen]; exact hfront),
        List.getD_eq_getElem?_getD,
        List.getElem?_append_right (by omega)]
      have : j - (g.drop 1).length = 0 := by omega
      rw [this]
      rfl

/-- The `discard_front` loop of length `k` shifts the logical view down by
`k` and vacates the last `k` positions. -/
theorem DiscoidBuffer.discardLoop_models :
    ∀ (k : Nat) (b : DiscoidBuffer T) (g : List (Option T)), b.Models g →
      k ≤ g.length →
      (DiscoidBuffer.discardLoop b k).Models (g.drop k ++ List.replicate k none)
  | 0, b, g, hm, _ => by simpa using hm
  | k + 1, b, g, hm, hk => by
      have hstep := DiscoidBuffer.discard_step_models b g hm
      have hglen : (g.drop 1 ++ [none]).length = g.length := by
        simp
        omega
      have hrec := DiscoidBuffer.discardLoop_models k _ (g.drop 1 ++ [none])
        hstep (by omega)
      have heq : (g.drop 1 ++ [none]).drop k ++ List.replicate k none
          = g.drop (k + 1) ++ List.replicate (k + 1) none := by
        rw [List.drop_append_of_le_length (by simp; omega), List.drop_drop,
          List.append_assoc]
        have h1 : 1 + k = k + 1 := by omega
        have h2 : ([none] ++ List.replicate k none : List (Option T))
            = List.replicate (k + 1) none := by
          simp [List.replicate_succ]
        rw [h1, h2]
      rw [heq] at hrec
      simpa [DiscoidBuffer.discardLoop] using hrec

/-- An in-contract `discard_front` succeeds and its result shifts the
logical view down by `count`, vacating the last `count` positions. -/
theorem DiscoidBuffer.discard_models (b : DiscoidBuffer T)
    (g : List (Option T)) (count : Nat) (hm : b.Models g)
    (hc : count ≤ b.capacity) :
    ∃ b', b.discard_front count = PanicOr.ok b' ∧
      b'.Models (g.drop count ++ List.replicate count none) := by
  have hg : g.length = b.capacity := hm.2.2.1
  refine ⟨_, ?_, DiscoidBuffer.discardLoop_models count b g hm (by omega)⟩
  unfold DiscoidBuffer.discard_front
  rw [if_neg (by omega)]

/-- Running any in-contract set/discard sequence succeeds and tracks the
reference model `dspecRun` step for step. -/
theorem DiscoidBuffer.runOps_models :
    ∀ (ops : List (DOp T)) (b : DiscoidBuffer T) (g : List (Option T)),
      b.Models g → (∀ op ∈ ops, DOpValid g.length op) →
      ∃ bf, b.runOps ops = PanicOr.ok bf ∧ bf.Models (dspecRun g ops)
  | [], b, g, hm, _ => ⟨b, rfl, hm⟩
  | DOp.set i v :: rest, b, g, hm, hv => by
      have hg : g.length = b.capacity := hm.2.2.1
      have hi : i < b.capacity := by
        have := hv (DOp.set i v) (by simp)
        simpa [DOpValid, hg] using this
      obtain ⟨b', hset, hm'⟩ := DiscoidBuffer.set_models b g i v hm hi
      obtain ⟨bf, hrun, hmf⟩ := DiscoidBuffer.runOps_models rest b'
        (g.set i (some v)) hm'
        (by
          intro op hop
          have := hv op (by simp [hop])
          simpa using this)
      refine ⟨bf, ?_, ?_⟩
      · simp only [DiscoidBuffer.runOps, hset, hrun]
      · simpa [dspecRun, dspecStep] using hmf
  | DOp.discard n :: rest, b, g, hm, hv => by
      have hg : g.length = b.capacity := hm.2.2.1
      have hn : n ≤ b.capacity := by
        have := hv (DOp.discard n) (by simp)
        simpa [DOpValid, hg] using this
      obtain ⟨b', hdisc, hm'⟩ := DiscoidBuffer.discard_models b g n hm hn
      obtain ⟨bf, hrun, hmf⟩ := DiscoidBuffer.runOps_models rest b'
        (g.drop n ++ List.replicate n none) hm'
        (by
          intro op hop
          have h1 := hv op (by simp [hop])
          have h2 : (g.drop n ++ List.replicate n none).length = g.length := by
            simp
            omega
          rwa [← h2] at h1)
      refine ⟨bf, ?_, ?_⟩
      · simp only [DiscoidBuffer.runOps, hdisc, hrun]
      · simpa [dspecRun, dspecStep] using hmf

/-- On a slot buffer modelling `g`, `get_at_index i` is exactly the logical
occupant `g.getD i none` (absence past capacity included). -/
theorem DiscoidBuffer.get_at_models (b : DiscoidBuffer T) (g : List (Option T))
    (hm : b.Models g) (i : Nat) : b.get_at_index i = g.getD i none := by
  obtain ⟨hlen, hfront, hg, hslot⟩ := hm
  unfold DiscoidBuffer.get_at_index
  by_cases hcase : b.capacity ≤ i
  · rw [if_pos hcase, List.getD_eq_getElem?_getD,
      List.getElem?_eq_none (by omega)]
    rfl
  · rw [if_neg hcase]
    exact hslot i (by omega)

/-- Bit `j` of the occupancy fold over logical indices `0..n` is set exactly
when `j < n` and logical slot `j` is occupied. -/
theorem DiscoidBuffer.bits_aux (b : DiscoidBuffer T) :
    ∀ (n j : Nat),
      (((List.range n).foldl
        (fun bits i =>
          if (b.buffer.getD ((b.front + i) % b.capacity) none).isSome then
            bits ||| (1 <<< i)
          else
            bits)
        0).testBit j = true)
      ↔ (j < n ∧ (b.buffer.getD ((b.front + j) % b.capacity) none).isSome = true)
  | 0, j => by simp
  | n + 1, j => by
      rw [List.range_succ, List.foldl_append, List.foldl_cons, List.foldl_nil]
      by_cases hocc :
          (b.buffer.getD ((b.front + n) % b.capacity) none).isSome = true
      · rw [if_pos hocc, Nat.one_shiftLeft, Nat.testBit_or, Bool.or_eq_true,
          DiscoidBuffer.bits_aux b n j, Nat.testBit_two_pow,
          decide_eq_true_iff]
        constructor
        · rintro (⟨h1, h2⟩ | h3)
          · exact ⟨by omega, h2⟩
          · subst h3
            exact ⟨by omega, hocc⟩
        · rintro ⟨h1, h2⟩
          by_cases hj : j = n
          · subst hj
            exact Or.inr rfl
          · exact Or.inl ⟨by omega, h2⟩
      · rw [if_neg hocc, DiscoidBuffer.bits_aux b n j]
        constructor
        · rintro ⟨h1, h2⟩
          exact ⟨by omega, h2⟩
        · rintro ⟨h1, h2⟩
          by_cases hj : j = n
          · subst hj
            exact absurd h2 hocc
          · exact ⟨by omega, h2⟩

/-- Bit `i` of `get_bits_representation` equals occupancy of logical slot
`i` as reported by `get_at_index` — for every state and every index. -/
theorem DiscoidBuffer.bits_models (b : DiscoidBuffer T) (i : Nat) :
    (b.get_bits_representation).testBit i = (b.get_at_index i).isSome := by
  unfold DiscoidBuffer.get_bits_representation DiscoidBuffer.get_at_index
  have hiff := DiscoidBuffer.bits_aux b b.capacity i
  by_cases hcase : b.capacity ≤ i
  · rw [if_pos hcase]
    cases htb : (((List.range b.capacity).foldl
        (fun bits i =>
          if (b.buffer.getD ((b.front + i) % b.capacity) none).isSome then
            bits ||| (1 <<< i)
          else
            bits)
        0).testBit i) with
    | false => rfl
    | true =>
        have := (hiff.mp htb).1
        omega
  · rw [if_neg hcase]
    cases hocc : (b.buffer.getD ((b.front + i) % b.capacity) none).isSome with
    | false =>
        cases htb : (((List.range b.capacity).foldl
            (fun bits i =>
              if (b.buffer.getD ((b.front + i) % b.capacity) none).isSome then
                bits ||| (1 <<< i)
              else
                bits)
            0).testBit i) with
        | false => rfl
        | true =>
            have := (hiff.mp htb).2
            rw [hocc] at this
            exact absurd this (by simp)
    | true => exact hiff.mpr ⟨by omega, hocc⟩

/-- C1: FIFO order.  For every capacity and every push/pop sequence starting
from a fresh buffer, the run never aborts and the values returned by `pop`
(`pops`, in order) prolonged by the final content equal the values accepted
by `push` (`acc`, in order): every popped value comes back in exactly push
order, the first `pops.length` accepted values being popped first.  In
particular (see the witness) pushing 1,2,3 into capacity 5 and popping three
times yields 1, then 2, then 3. -/
theorem claim_C1_fifo_order (cap : Nat) (hcap : 0 < cap) (ops : List (POp T)) :
    ∃ bf lf acc pops,
      (CircularBuffer.new (T := T) cap).runPP ops = PanicOr.ok (bf, acc, pops) ∧
      bf.Models lf ∧ pops ++ lf = acc := by
  obtain ⟨bf, lf, acc, pops, h1, h2, h3⟩ :=
    CircularBuffer.runPP_models ops (CircularBuffer.new cap) []
      (CircularBuffer.new_models cap hcap)
  exact ⟨bf, lf, acc, pops, h1, h2, by simpa using h3⟩

/-- Witness for C1 at the claim's own example: capacity 5, pushes 1,2,3 and
three pops; the run concretely accepts [1,2,3] and pops [1,2,3]. -/
theorem claim_C1_fifo_order_witness :
    (∃ bf lf acc pops,
        (CircularBuffer.new (T := Nat) 5).runPP
            [POp.push 1, POp.push 2, POp.push 3, POp.pop, POp.pop, POp.pop]
          = PanicOr.ok (bf, acc, pops) ∧
        bf.Models lf ∧ pops ++ lf = acc) ∧
    (CircularBuffer.new (T := Nat) 5).runPP
        [POp.push 1, POp.push 2, POp.push 3, POp.pop, POp.pop, POp.pop]
      = PanicOr.ok
          ({ buffer := List.replicate 5 none, front := 3, rear := 3,
             capacity := 5, len := 0 },
           [1, 2, 3], [1, 2, 3]) :=
  ⟨claim_C1_fifo_order 5 (by decide)
      [POp.push 1, POp.push 2, POp.push 3, POp.pop, POp.pop, POp.pop],
   by decide⟩

/-- C2 counterexample.  The claim asserts that a rejected `push` leaves
ownership of the value with the caller.  On the code this fails: `push`
consumes its argument and, on the full-buffer path, returns only
`Err(BufferFull)`, whose `BufferError` type has a single nullary
constructor, so the rejected value reappears nowhere in the call's outputs
— it is silently dropped.  Concretely, pushing 42 into a full capacity-1
buffer returns the unchanged state and the payload-free error: 42 is not in
the returned buffer and cannot be in the returned error. -/
theorem claim_C2_counterexample :
    fullBufOne.push 42 = (fullBufOne, Except.error BufferError.BufferFull) ∧
    (∀ o ∈ fullBufOne.buffer, o ≠ some 42) ∧
    (∀ e : BufferError, e = BufferError.BufferFull) := by
  refine ⟨rfl, by decide, ?_⟩
  intro e
  cases e
  rfl

/-- C2 (amended): for every buffer with `len = capacity`, `push v` returns
the pair of the completely unchanged state and `Err(BufferFull)` — no
partial mutation, the value is not stored; however, because the error value
carries no payload, the call consumes and drops `v` rather than leaving its
ownership with the caller. -/
theorem claim_C2_push_full (b : CircularBuffer T) (v : T)
    (h : b.len = b.capacity) :
    b.push v = (b, Except.error BufferError.BufferFull) :=
  CircularBuffer.push_full b v h

/-- Witness for C2 (amended) at the full capacity-1 buffer. -/
theorem claim_C2_push_full_witness :
    fullBufOne.len = fullBufOne.capacity ∧
    fullBufOne.push 7 = (fullBufOne, Except.error BufferError.BufferFull) :=
  ⟨by decide, claim_C2_push_full fullBufOne 7 (by decide)⟩

/-- C3: idempotence of absence.  On any state with `len = 0`, `pop` returns
absence together with the very same state, and so does any number of
repeated pops; on any state at all, `get i` with `i ≥ len` returns absence
(`get` takes the receiver immutably, so it cannot change state). -/
theorem claim_C3_absence (b : CircularBuffer T) :
    (b.len = 0 →
      b.pop = PanicOr.ok (b, none) ∧
      ∀ n, b.popN n = PanicOr.ok (b, List.replicate n none)) ∧
    (∀ i, b.len ≤ i → b.get i = none) := by
  constructor
  · intro h
    exact ⟨CircularBuffer.pop_nil b h, CircularBuffer.popN_nil b h⟩
  · intro i hi
    unfold CircularBuffer.get
    rw [if_pos hi]

/-- Witness for C3 on a fresh capacity-2 buffer: one pop, three repeated
pops, and an out-of-window peek all return absence with unchanged state. -/
theorem claim_C3_absence_witness :
    (CircularBuffer.new (T := Nat) 2).pop
        = PanicOr.ok (CircularBuffer.new 2, none) ∧
    (CircularBuffer.new (T := Nat) 2).popN 3
        = PanicOr.ok (CircularBuffer.new 2, List.replicate 3 none) ∧
    (CircularBuffer.new (T := Nat) 2).get 0 = none :=
  ⟨((claim_C3_absence (CircularBuffer.new 2)).1 (by decide)).1,
   ((claim_C3_absence (CircularBuffer.new 2)).1 (by decide)).2 3,
   (claim_C3_absence (CircularBuffer.new 2)).2 0 (by decide)⟩

/-- C4: FIFO peek bound.  On a buffer modelling content `l`, `get i`
returns the occupant at logical position `i` (the `i`-th element of `l` in
FIFO order, without removing it) exactly when `i < len`, and returns
absence for every `i ≥ len`; it never reports a value from outside the
logical window. -/
theorem claim_C4_peek_bound (b : CircularBuffer T) (l : List T)
    (hm : b.Models l) :
    (∀ i, i < b.len → b.get i = l[i]? ∧ (b.get i).isSome = true) ∧
    (∀ i, b.len ≤ i → b.get i = none) := by
  have hl : b.len = l.length := hm.2.2.2.1
  constructor
  · intro i hi
    have hget := CircularBuffer.get_models b l hm i
    refine ⟨hget, ?_⟩
    rw [hget, List.getElem?_eq_getElem (by omega)]
    rfl
  · intro i hi
    have hget := CircularBuffer.get_models b l hm i
    rw [hget]
    exact List.getElem?_eq_none (by omega)

/-- Witness for C4 on the wrapped capacity-3 buffer holding [3,4,5]:
logical index 1 reads 4 (present), logical index 3 reads absence. -/
theorem claim_C4_peek_bound_witness :
    wrapBuf.get 1 = [3, 4, 5][1]? ∧ (wrapBuf.get 1).isSome = true ∧
    wrapBuf.get 3 = none :=
  ⟨((claim_C4_peek_bound wrapBuf [3, 4, 5] (by decide)).1 1 (by decide)).1,
   ((claim_C4_peek_bound wrapBuf [3, 4, 5] (by decide)).1 1 (by decide)).2,
   (claim_C4_peek_bound wrapBuf [3, 4, 5] (by decide)).2 3 (by decide)⟩

/-- C5: consuming iteration.  On a buffer modelling content `l` (with
`n = l.length = len` elements), running the consuming iterator any number
`k` of steps produces the first `min k n` elements of `l` in front-to-rear
order and nothing (`none`) at every step after the `n`-th; on an empty
buffer (`l = []`) every step produces nothing. -/
theorem claim_C5_consuming_iteration (b : CircularBuffer T) (l : List T)
    (hm : b.Models l) (k : Nat) :
    ∃ itf, (b.into_iter).nextN k
        = (itf, (l.take k).map some ++ List.replicate (k - l.length) none) := by
  obtain ⟨itf, h1, _⟩ := CircularBufferIntoIter.nextN_models k l (b.into_iter)
    (CircularBuffer.into_iter_models b l hm)
  exact ⟨itf, h1⟩

/-- Witness for C5 at the spec's wraparound example: the wrapped capacity-3
buffer holding [3,4,5], iterated 4 times, concretely yields
some 3, some 4, some 5, then none, draining every slot. -/
theorem claim_C5_consuming_iteration_witness :
    (∃ itf, (wrapBuf.into_iter).nextN 4
        = (itf, ([3, 4, 5].take 4).map some
            ++ List.replicate (4 - [3, 4, 5].length) none)) ∧
    (wrapBuf.into_iter).nextN 4
      = ({ buffer := List.replicate 3 none, front := 2, capacity := 3,
           current := 3, remaining := 0 },
         [some 3, some 4, some 5, none]) :=
  ⟨claim_C5_consuming_iteration wrapBuf [3, 4, 5] (by decide) 4, by decide⟩

/-- C6: slot-buffer read-after-write.  For every in-contract sequence of
`set_at_index` and `discard_front` operations from a fresh buffer, the run
succeeds and every `get_at_index i` reads exactly the reference logical
view `dspecRun`: the value of the most recent write whose target currently
sits at logical position `i` — where `discard_front k` erases the first
`k` logical positions, shifting the surviving targets down by `k` — and
absence when that position was never written or its write has been
discarded (`get_at_index` is read-only, so interleaved reads cannot change
the state). -/
theorem claim_C6_read_after_write (cap : Nat) (hcap : 0 < cap)
    (ops : List (DOp T)) (hv : ∀ op ∈ ops, DOpValid cap op) :
    ∃ bf, (DiscoidBuffer.new (T := T) cap).runOps ops = PanicOr.ok bf ∧
      ∀ i, bf.get_at_index i
          = (dspecRun (List.replicate cap none) ops).getD i none := by
  obtain ⟨bf, h1, h2⟩ := DiscoidBuffer.runOps_models ops (DiscoidBuffer.new cap)
    (List.replicate cap none) (DiscoidBuffer.new_slot_models cap hcap)
    (by simpa using hv)
  exact ⟨bf, h1, fun i => DiscoidBuffer.get_at_models bf _ h2 i⟩

/-- Witness for C6: on an 8-slot buffer, write 99 at logical index 3, then
discard one position from the front; the surviving write now sits at
logical index 2 (reads 99) and logical index 3 reads absence. -/
theorem claim_C6_read_after_write_witness :
    (∃ bf, (DiscoidBuffer.new (T := Nat) 8).runOps
          [DOp.set 3 99, DOp.discard 1] = PanicOr.ok bf ∧
        ∀ i, bf.get_at_index i
            = (dspecRun (List.replicate 8 none)
                [DOp.set 3 99, DOp.discard 1]).getD i none) ∧
    (DiscoidBuffer.new (T := Nat) 8).runOps [DOp.set 3 99, DOp.discard 1]
      = PanicOr.ok
          { buffer := [none, none, none, some 99, none, none, none, none]
            front := 1
            capacity := 8 } ∧
    ({ buffer := [none, none, none, some 99, none, none, none, none]
       front := 1
       capacity := 8 } : DiscoidBuffer Nat).get_at_index 2 = some 99 ∧
    ({ buffer := [none, none, none, some 99, none, none, none, none]
       front := 1
       capacity := 8 } : DiscoidBuffer Nat).get_at_index 3 = none :=
  ⟨claim_C6_read_after_write 8 (by decide) [DOp.set 3 99, DOp.discard 1]
      (by decide),
   by decide, by decide, by decide⟩

/-- C7: occupancy bitmask.  For every slot-buffer state whose capacity fits
the 64-bit mask of the source, bit `i` of `get_bits_representation` is set
exactly when logical slot `i` is occupied (i.e. `get_at_index i` reports a
value), whatever the absolute position of `front`; bits at and beyond
`capacity` are never set (`get_at_index` is absent there). -/
theorem claim_C7_bitmask (b : DiscoidBuffer T) (_hcap : b.capacity ≤ 64)
    (i : Nat) :
    (b.get_bits_representation).testBit i = (b.get_at_index i).isSome :=
  DiscoidBuffer.bits_models b i

/-- Witness for C7 at the spec's example: an 8-slot buffer with `front = 5`
and logical indices 0 and 3 occupied has bitmask 0b1001 = 9, its bits 0 and
3 matching occupancy. -/
theorem claim_C7_bitmask_witness :
    slotBufEx.capacity ≤ 64 ∧
    (slotBufEx.get_bits_representation).testBit 0
        = (slotBufEx.get_at_index 0).isSome ∧
    (slotBufEx.get_bits_representation).testBit 3
        = (slotBufEx.get_at_index 3).isSome ∧
    (slotBufEx.get_bits_representation).testBit 1
        = (slotBufEx.get_at_index 1).isSome ∧
    slotBufEx.get_bits_representation = 9 :=
  ⟨by decide, claim_C7_bitmask slotBufEx (by decide) 0,
   claim_C7_bitmask slotBufEx (by decide) 3,
   claim_C7_bitmask slotBufEx (by decide) 1, by decide⟩

/-- C8 counterexample.  The claim asserts that out-of-contract calls are
signalled as explicit, inspectable, recoverable failure values and never as
panics.  On the code both calls execute `panic!` — an uncatchable abort
with a message, not a returned failure value: concretely, on a fresh
3-slot buffer, `set_at_index 5` aborts with "index out of bounds" and
`discard_front 4` aborts with "discarding too much". -/
theorem claim_C8_counterexample :
    (DiscoidBuffer.new (T := Nat) 3).set_at_index 5 0
        = PanicOr.panicked "discoid buffer: index out of bounds" ∧
    (DiscoidBuffer.new (T := Nat) 3).discard_front 4
        = PanicOr.panicked "discoid buffer: discarding too much" := by
  constructor <;> rfl

/-- C8 (amended): every out-of-contract call — `set_at_index` with
`index ≥ capacity`, `discard_front` with `count > capacity` — is signalled
by an uncatchable `panic!` abort carrying a diagnostic message, not by a
returned failure value. -/
theorem claim_C8_contract_panics (b : DiscoidBuffer T) (i n : Nat) (v : T) :
    (b.capacity ≤ i →
      b.set_at_index i v
        = PanicOr.panicked "discoid buffer: index out of bounds") ∧
    (b.capacity < n →
      b.discard_front n
        = PanicOr.panicked "discoid buffer: discarding too much") := by
  constructor
  · intro h
    unfold DiscoidBuffer.set_at_index
    rw [if_pos h]
  · intro h
    unfold DiscoidBuffer.discard_front
    rw [if_pos h]

/-- Witness for C8 (amended) on a fresh 3-slot buffer with a write at
index 5 and a discard of 4. -/
theorem claim_C8_contract_panics_witness :
    (DiscoidBuffer.new (T := Nat) 3).capacity ≤ 5 ∧
    (DiscoidBuffer.new (T := Nat) 3).capacity < 4 ∧
    (DiscoidBuffer.new (T := Nat) 3).set_at_index 5 7
        = PanicOr.panicked "discoid buffer: index out of bounds" ∧
    (DiscoidBuffer.new (T := Nat) 3).discard_front 4
        = PanicOr.panicked "discoid buffer: discarding too much" :=
  ⟨by decide, by decide,
   (claim_C8_contract_panics (DiscoidBuffer.new 3) 5 4 7).1 (by decide),
   (claim_C8_contract_panics (DiscoidBuffer.new 3) 5 4 7).2 (by decide)⟩

/-- C9 counterexample.  The claim asserts that construction with capacity 0
produces a construction failure rather than a usable instance.  On the code
neither constructor can fail — both return a plain instance
unconditionally; at capacity 0 the returned instances are ordinary values
(zero slots, all cursors 0) on which every operation behaves normally:
`push` reports the buffer full, `pop` and reads report absence, and the
bitmask is 0. -/
theorem claim_C9_counterexample :
    CircularBuffer.new (T := Nat) 0
        = { buffer := [], front := 0, rear := 0, capacity := 0, len := 0 } ∧
    DiscoidBuffer.new (T := Nat) 0
        = { buffer := [], front := 0, capacity := 0 } ∧
    (CircularBuffer.new (T := Nat) 0).push 7
        = (CircularBuffer.new 0, Except.error BufferError.BufferFull) ∧
    (CircularBuffer.new (T := Nat) 0).pop
        = PanicOr.ok (CircularBuffer.new 0, none) ∧
    (DiscoidBuffer.new (T := Nat) 0).get_at_index 0 = none ∧
    (DiscoidBuffer.new (T := Nat) 0).get_bits_representation = 0 :=
  ⟨rfl, rfl, rfl, rfl, rfl, rfl⟩

/-- C9 (amended): construction never fails for either buffer.  For every
capacity — 0 included — `new` returns an instance with exactly `capacity`
empty slots and `front = 0` (and `rear = 0`, `length = 0` for the FIFO
buffer); at capacity 0 the instance is degenerate but well-behaved (every
push is rejected as full, every read is absent). -/
theorem claim_C9_construction (cap : Nat) :
    (CircularBuffer.new (T := T) cap).buffer = List.replicate cap none ∧
    (CircularBuffer.new (T := T) cap).front = 0 ∧
    (CircularBuffer.new (T := T) cap).rear = 0 ∧
    (CircularBuffer.new (T := T) cap).len = 0 ∧
    (CircularBuffer.new (T := T) cap).capacity = cap ∧
    (DiscoidBuffer.new (T := T) cap).buffer = List.replicate cap none ∧
    (DiscoidBuffer.new (T := T) cap).front = 0 ∧
    (DiscoidBuffer.new (T := T) cap).capacity = cap ∧
    ∀ v : T, (CircularBuffer.new (T := T) 0).push v
        = (CircularBuffer.new 0, Except.error BufferError.BufferFull) :=
  ⟨rfl, rfl, rfl, rfl, rfl, rfl, rfl, rfl, fun _ => rfl⟩

/-- C10: reachable-state invariant.  Every state reachable from
construction (positive capacity) by any sequence of push, pop and
remove_multiple calls models some content list: its `len` is at most
`capacity`, the slots at logical indices `0..len` all hold a value, every
other slot is empty — and consequently the run itself never aborts and
`pop` on a non-empty reachable state always finds a value at front, so the
"invariant violated" `expect` branch is unreachable. -/
theorem claim_C10_invariant (cap : Nat) (hcap : 0 < cap)
    (ops : List (QOp T)) :
    ∃ bf lf,
      (CircularBuffer.new (T := T) cap).runAll ops = PanicOr.ok bf ∧
      bf.Models lf ∧
      bf.len ≤ bf.capacity ∧
      (∀ i, i < bf.len →
        (bf.buffer.getD ((bf.front + i) % bf.capacity) none).isSome = true) ∧
      (∀ i, bf.len ≤ i → i < bf.capacity →
        bf.buffer.getD ((bf.front + i) % bf.capacity) none = none) ∧
      (0 < bf.len → ∃ b' v, bf.pop = PanicOr.ok (b', some v)) := by
  obtain ⟨bf, lf, h1, h2⟩ := CircularBuffer.runAll_models ops
    (CircularBuffer.new cap) [] (CircularBuffer.new_models cap hcap)
  have hm := h2
  obtain ⟨hlen, hfront, hrear, hl, hle, hslot⟩ := h2
  refine ⟨bf, lf, h1, hm, hle, ?_, ?_, ?_⟩
  · intro i hi
    rw [hslot i (by omega), List.getElem?_eq_getElem (by omega : i < lf.length)]
    rfl
  · intro i h1i h2i
    rw [hslot i h2i]
    exact List.getElem?_eq_none (by omega)
  · intro hpos
    match lf, hl, hm with
    | [], hl, _ =>
        rw [List.length_nil] at hl
        omega
    | x :: xs, _, hm =>
        obtain ⟨b', hp, _⟩ := CircularBuffer.pop_models_cons bf x xs hm
        exact ⟨b', x, hp⟩

/-- Witness for C10: capacity 2 with a run exercising a rejected push, a
pop and an over-large remove; the run concretely reaches the state holding
only the value 9. -/
theorem claim_C10_invariant_witness :
    (∃ bf lf,
        (CircularBuffer.new (T := Nat) 2).runAll
            [QOp.push 5, QOp.push 6, QOp.push 7, QOp.pop, QOp.remove 3,
             QOp.push 9]
          = PanicOr.ok bf ∧
        bf.Models lf ∧
        bf.len ≤ bf.capacity ∧
        (∀ i, i < bf.len →
          (bf.buffer.getD ((bf.front + i) % bf.capacity) none).isSome = true) ∧
        (∀ i, bf.len ≤ i → i < bf.capacity →
          bf.buffer.getD ((bf.front + i) % bf.capacity) none = none) ∧
        (0 < bf.len → ∃ b' v, bf.pop = PanicOr.ok (b', some v))) ∧
    (CircularBuffer.new (T := Nat) 2).runAll
        [QOp.push 5, QOp.push 6, QOp.push 7, QOp.pop, QOp.remove 3, QOp.push 9]
      = PanicOr.ok
          { buffer := [some 9, none], front := 0, rear := 1,
            capacity := 2, len := 1 } :=
  ⟨claim_C10_invariant 2 (by decide)
      [QOp.push 5, QOp.push 6, QOp.push 7, QOp.pop, QOp.remove 3, QOp.push 9],
   by decide⟩
